import Mathlib

/-!
Verification of the pending-edit tracking engine of the crm repository
(src/components/business_components/tables/table_data/table_data.rs).

The Rust session state `TableData` holds a snapshot of the opened table
(`table_inserted_data`), the pending edit log (`table_data_change_events`),
the primary key column names, and the current-index to initial-index
translator (`current_to_initial_row_indexes`, a HashMap).

Embedding conventions:
  * Rust `HashMap` becomes an association list with distinct keys; `insert`
    replaces in place, `remove` drops the key, `get` searches.  All uses in
    the source are order-independent (lookups, or key sets that the source
    sorts before use), so the list order never influences a result.
  * Every Rust panic (`unwrap` on `None`, out-of-bounds indexing, `usize`
    subtraction overflow) is modelled by returning `none`; an operation
    that returns `none` corresponds to a panicking call.
  * The console logging calls have no effect on the session state and are
    omitted.
-/

namespace Crm

/-- Column type tags, per the data model (TEXT, INTEGER, TIMESTAMP, ...). -/
inductive BDataType where
  | TEXT
  | INTEGER
  | TIMESTAMP
deriving DecidableEq, Repr

/-- One primary-key condition triple: column name, type tag, value. -/
structure BCondition where
  column_name : String
  data_type : BDataType
  value : String
deriving DecidableEq, Repr

/-- Payload of an InsertRow event. -/
structure BRowInsertData where
  column_names : List String
  values : List String
  data_types : List BDataType
deriving DecidableEq, Repr

/-- Payload of a ModifyRowColumnValue event: the row's primary-key
conditions and a map from column name to (type tag, pending value). -/
structure BRowColumnValue where
  conditions : List BCondition
  column_values : List (String × BDataType × String)
deriving DecidableEq, Repr

/-- The tagged union of pending edit events. -/
inductive BTableDataChangeEvents where
  | InsertRow (d : BRowInsertData)
  | ModifyRowColumnValue (d : BRowColumnValue)
  | DeleteRow (conditions : List BCondition)
deriving DecidableEq, Repr

/-- The snapshot: table name, ordered columns with type tags, and the
fetched rows (each a list of string-encoded cell values). -/
structure BTableInsertedData where
  table_name : String
  column_names : List String
  data_types : List BDataType
  rows : List (List String)
deriving DecidableEq, Repr

/-- The in-memory session state of `TableData`. -/
structure TableData where
  table_inserted_data : Option BTableInsertedData
  table_data_change_events : List BTableDataChangeEvents
  primary_key_column_names : List String
  current_to_initial_row_indexes : List (Nat × Nat)
deriving DecidableEq, Repr

/-- HashMap get: find the value stored at a key. -/
def assocGet {κ ν : Type} [DecidableEq κ] : List (κ × ν) → κ → Option ν
  | [], _ => none
  | (k', v) :: rest, k => if k' = k then some v else assocGet rest k

/-- HashMap insert: replace the value at an existing key in place,
otherwise add the binding. -/
def assocInsert {κ ν : Type} [DecidableEq κ] : List (κ × ν) → κ → ν → List (κ × ν)
  | [], k, v => [(k, v)]
  | (k', v') :: rest, k, v =>
      if k' = k then (k, v) :: rest else (k', v') :: assocInsert rest k v

/-- HashMap remove: drop the binding at a key. -/
def assocRemove {κ ν : Type} [DecidableEq κ] : List (κ × ν) → κ → List (κ × ν)
  | [], _ => []
  | (k', v') :: rest, k => if k' = k then rest else (k', v') :: assocRemove rest k

/-- HashMap keys. -/
def assocKeys {κ ν : Type} (m : List (κ × ν)) : List κ := m.map Prod.fst

/-- Insert into a list sorted in descending order. -/
def insertDesc (x : Nat) : List Nat → List Nat
  | [] => [x]
  | y :: ys => if y ≤ x then x :: y :: ys else y :: insertDesc x ys

/-- Sort a list of keys in descending order (`sort_by(|a, b| b.cmp(a))`). -/
def sortDesc (l : List Nat) : List Nat := l.foldr insertDesc []

/-- Number of DeleteRow events in the log. -/
def deleteCount (events : List BTableDataChangeEvents) : Nat :=
  (events.filter (fun e => match e with
    | .DeleteRow _ => true
    | _ => false)).length

/-- Number of InsertRow events in the log. -/
def insertCount (events : List BTableDataChangeEvents) : Nat :=
  (events.filter (fun e => match e with
    | .InsertRow _ => true
    | _ => false)).length

/-- `row_index.checked_sub k`. -/
def checkedSub (a b : Nat) : Option Nat := if a < b then none else some (a - b)

/-- `get_primary_key_conditions`: translate the current row index through
the translator, then build one condition per primary-key column from the
snapshot row at the initial index.  `none` models the source's `unwrap`
panic on a missing translator entry or an out-of-bounds row index. -/
def get_primary_key_conditions (primary_key_column_names : List String)
    (translator : List (Nat × Nat)) (t : BTableInsertedData)
    (row_index : Nat) : Option (List BCondition) :=
  match assocGet translator row_index with
  | none => none
  | some adjusted =>
    match t.rows[adjusted]? with
    | none => none
    | some row =>
      some (((t.column_names.zip t.data_types).zip row).filterMap
        (fun p =>
          if primary_key_column_names.contains p.1.1 then
            some ⟨p.1.1, p.1.2, p.2⟩
          else none))

/-- Position of the first element satisfying a predicate
(`Iterator::position`). -/
def listPosition {α : Type} (p : α → Bool) : List α → Option Nat
  | [] => none
  | x :: xs => if p x then some 0 else (listPosition p xs).map (· + 1)

/-- Log positions of the InsertRow events, in log order, starting the
enumeration at `n` (`enumerate().filter_map(...)`). -/
def insertEventIndexesFrom (n : Nat) : List BTableDataChangeEvents → List Nat
  | [] => []
  | e :: es =>
    match e with
    | .InsertRow _ => n :: insertEventIndexesFrom (n + 1) es
    | _ => insertEventIndexesFrom (n + 1) es

/-- Log positions of the InsertRow events, in log order. -/
def insertEventIndexes (events : List BTableDataChangeEvents) : List Nat :=
  insertEventIndexesFrom 0 events

/-- `find_existing_row_insert_event`: decide whether `row_index` addresses
an uncommitted insert and return that event's log position.  The outer
`none` models the `usize` subtraction overflow panic when the log holds
more DeleteRow events than the snapshot has rows; `some none` means the
index does not address an insert. -/
def find_existing_row_insert_event (events : List BTableDataChangeEvents)
    (t : BTableInsertedData) (row_index : Nat) : Option (Option Nat) :=
  let d := deleteCount events
  if t.rows.length < d then none
  else
    some (match checkedSub row_index (t.rows.length - d) with
      | none => none
      | some offset => (insertEventIndexes events)[offset]?)

/-- Whether an event is a ModifyRowColumnValue keyed by the given
primary-key conditions. -/
def isModifyWith (conditions : List BCondition)
    (e : BTableDataChangeEvents) : Bool :=
  match e with
  | .ModifyRowColumnValue r => decide (r.conditions = conditions)
  | _ => false

/-- `find_existing_modify_row_event`: log position of the first
ModifyRowColumnValue event whose conditions equal this row's primary-key
conditions.  The outer `none` propagates a panic from
`get_primary_key_conditions`. -/
def find_existing_modify_row_event (primary_key_column_names : List String)
    (translator : List (Nat × Nat)) (events : List BTableDataChangeEvents)
    (t : BTableInsertedData) (row_index : Nat) : Option (Option Nat) :=
  (get_primary_key_conditions primary_key_column_names translator t row_index).map
    (fun conditions => listPosition (isModifyWith conditions) events)

/-- `update_modify_row_event`: merge one cell edit into an existing
ModifyRowColumnValue event at `event_index`.  A pending value equal to the
snapshot value at `rows[row_index]` cancels the column's pending change,
and removing the last pending change removes the whole event. -/
def update_modify_row_event (events : List BTableDataChangeEvents)
    (t : BTableInsertedData) (row_index event_index : Nat)
    (column_name new_value : String) (data_type : BDataType) :
    Option (List BTableDataChangeEvents) :=
  match events[event_index]? with
  | none => some events
  | some e =>
    match e with
    | .ModifyRowColumnValue r =>
      match assocGet r.column_values column_name with
      | some (dt, _) =>
        match listPosition (fun c => c == column_name) t.column_names with
        | none => none
        | some column_index =>
          match t.rows[row_index]? with
          | none => none
          | some row =>
            match row[column_index]? with
            | none => none
            | some original_value =>
              if new_value = original_value then
                let r' : BRowColumnValue :=
                  ⟨r.conditions, assocRemove r.column_values column_name⟩
                if r'.column_values.length = 0 then
                  some (events.eraseIdx event_index)
                else
                  some (events.set event_index (.ModifyRowColumnValue r'))
              else
                some (events.set event_index (.ModifyRowColumnValue
                  ⟨r.conditions,
                   assocInsert r.column_values column_name (dt, new_value)⟩))
      | none =>
        some (events.set event_index (.ModifyRowColumnValue
          ⟨r.conditions,
           assocInsert r.column_values column_name (data_type, new_value)⟩))
    | _ => some events

/-- `update_existing_insert_row_event`: overwrite the stored value of the
matching column inside an InsertRow event, in place. -/
def update_existing_insert_row_event (e : BTableDataChangeEvents)
    (column_name new_value : String) (t : BTableInsertedData) :
    BTableDataChangeEvents :=
  match e with
  | .InsertRow d =>
    .InsertRow ⟨d.column_names,
      (t.column_names.zip d.values).map
        (fun p => if p.1 = column_name then new_value else p.2),
      d.data_types⟩
  | other => other

/-- `add_insert_row_event`: append a new InsertRow event; panics (`none`)
when no table is open. -/
def add_insert_row_event (s : TableData) (values : List String) :
    Option TableData :=
  match s.table_inserted_data with
  | none => none
  | some t =>
    let events := s.table_data_change_events ++
      [.InsertRow ⟨t.column_names, values, t.data_types⟩]
    some { s with table_data_change_events := events }

/-- `add_modify_row_column_value_event`: stage a cell edit, merging it into
the log per the rules of the source. -/
def add_modify_row_column_value_event (s : TableData) (row_index : Nat)
    (column_name new_value : String) : Option TableData :=
  match s.table_inserted_data with
  | none => none
  | some t =>
    match find_existing_row_insert_event s.table_data_change_events t row_index with
    | none => none
    | some (some existing_event_index) =>
      match s.table_data_change_events[existing_event_index]? with
      | none => some s
      | some e =>
        let events := s.table_data_change_events.set existing_event_index
          (update_existing_insert_row_event e column_name new_value t)
        some { s with table_data_change_events := events }
    | some none =>
      if t.rows.length ≤ row_index then some s
      else
        match listPosition (fun c => c == column_name) t.column_names with
        | none => none
        | some column_datatype_index =>
          match t.data_types[column_datatype_index]? with
          | none => none
          | some data_type =>
            match find_existing_modify_row_event s.primary_key_column_names
                s.current_to_initial_row_indexes s.table_data_change_events
                t row_index with
            | none => none
            | some (some existing_event_index) =>
              (update_modify_row_event s.table_data_change_events t row_index
                  existing_event_index column_name new_value data_type).map
                (fun evs => { s with table_data_change_events := evs })
            | some none =>
              match get_primary_key_conditions s.primary_key_column_names
                  s.current_to_initial_row_indexes t row_index with
              | none => none
              | some conditions =>
                let events := s.table_data_change_events ++
                  [.ModifyRowColumnValue
                    ⟨conditions, [(column_name, (data_type, new_value))]⟩]
                some { s with table_data_change_events := events }

/-- One iteration of the translator renumbering loop in
`add_delete_row_event`: read the initial index at the key, reinsert it at
key minus one, and drop the old key only on the first iteration. -/
def shiftStep (m : List (Nat × Nat)) (iterIndex current_row_index : Nat) :
    Option (List (Nat × Nat)) :=
  match assocGet m current_row_index with
  | none => none
  | some initial_row_index =>
    let m1 := assocInsert m (current_row_index - 1) initial_row_index
    some (if iterIndex = 0 then assocRemove m1 current_row_index else m1)

/-- The full renumbering loop over the keys greater than the deleted
index, sorted in descending order. -/
def shiftLoop (m : List (Nat × Nat)) : List Nat → Nat → Option (List (Nat × Nat))
  | [], _ => some m
  | k :: ks, i =>
    match shiftStep m i k with
    | none => none
    | some m' => shiftLoop m' ks (i + 1)

/-- `add_delete_row_event`: cancel an uncommitted insert, or stage a
DeleteRow event keyed by the row's primary-key conditions and renumber the
translator. -/
def add_delete_row_event (s : TableData) (row_index : Nat) : Option TableData :=
  match s.table_inserted_data with
  | none => none
  | some t =>
    match find_existing_row_insert_event s.table_data_change_events t row_index with
    | none => none
    | some (some existing_event_index) =>
      let events := s.table_data_change_events.eraseIdx existing_event_index
      some { s with table_data_change_events := events }
    | some none =>
      if t.rows.length ≤ row_index then some s
      else
        match get_primary_key_conditions s.primary_key_column_names
            s.current_to_initial_row_indexes t row_index with
        | none => none
        | some conditions =>
          let events := s.table_data_change_events ++ [.DeleteRow conditions]
          let keys_to_update :=
            sortDesc ((assocKeys s.current_to_initial_row_indexes).filter
              (fun k => decide (row_index < k)))
          match shiftLoop s.current_to_initial_row_indexes keys_to_update 0 with
          | none => none
          | some m =>
            some { s with
              table_data_change_events := events,
              current_to_initial_row_indexes := m }

/-- Per-table general info consulted by `set_table_data` (name, ordered
column names, type tags), as held in `tables_general_info`. -/
structure BTableGeneral where
  table_name : String
  column_names : List String
  data_types : List BDataType
deriving DecidableEq, Repr

/-- The identity translator built by the loop in `set_table_data`:
insert `(index, index)` for every fetched row position in order. -/
def identityMap (n : Nat) : List (Nat × Nat) :=
  (List.range n).foldl (fun m i => assocInsert m i i) []

/-- `set_table_data`: when the table name appears in the general info,
install the freshly fetched snapshot, reset the translator to the identity
mapping over the fetched rows, clear the pending edit log, and store the
fetched primary-key column names.  The Repository fetches are supplied as
parameters (`fetched_pk_names`, `fetched_rows`); the source unwraps their
results. -/
def set_table_data (infos : List BTableGeneral) (fetched_pk_names : List String)
    (fetched_rows : List (List String)) (s : TableData) (table_name : String) :
    TableData :=
  match infos.find? (fun i => i.table_name = table_name) with
  | none => s
  | some info =>
    let t : BTableInsertedData :=
      ⟨table_name, info.column_names, info.data_types, fetched_rows⟩
    { table_inserted_data := some t,
      table_data_change_events := [],
      primary_key_column_names := fetched_pk_names,
      current_to_initial_row_indexes := identityMap fetched_rows.length }

/-- Modelled from the spec: the Repository collaborator (whose code is not
under src/) reports success or failure of applying the batch as a result
value, `repo_failed = true` meaning an error was reported.
`update_table_data` (the commit path) captures the table name and the
pending events, lets the Repository apply them, discards the reported
outcome exactly as the source does, and unconditionally refreshes via
`set_table_data`. -/
def update_table_data (infos : List BTableGeneral)
    (fetched_pk_names : List String) (fetched_rows : List (List String))
    (repo_failed : Bool) (s : TableData) : TableData :=
  match s.table_inserted_data with
  | none => s
  | some t =>
    let _ := repo_failed
    set_table_data infos fetched_pk_names fetched_rows s t.table_name

/-- Number of rows currently displayed: snapshot rows minus pending
deletes plus pending inserts. -/
def displayedRowCount (s : TableData) : Nat :=
  match s.table_inserted_data with
  | none => 0
  | some t =>
    t.rows.length - deleteCount s.table_data_change_events
      + insertCount s.table_data_change_events

/-- One user-facing edit call. -/
inductive Op where
  | insert (values : List String)
  | modify (row_index : Nat) (column_name new_value : String)
  | delete (row_index : Nat)

/-- Apply one edit call to the session state (`none` models a panic). -/
def applyOp (s : TableData) : Op → Option TableData
  | .insert values => add_insert_row_event s values
  | .modify row_index column_name new_value =>
      add_modify_row_column_value_event s row_index column_name new_value
  | .delete row_index => add_delete_row_event s row_index

/-- Run a sequence of edit calls; `none` once any call panics. -/
def runOps : List Op → TableData → Option TableData
  | [], s => some s
  | op :: ops, s =>
    match applyOp s op with
    | none => none
    | some s' => runOps ops s'

/-- Number of ModifyRowColumnValue events in the log keyed by the given
primary-key conditions. -/
def modifyCondCount (events : List BTableDataChangeEvents)
    (conditions : List BCondition) : Nat :=
  (events.filter (isModifyWith conditions)).length

/-- At most one ModifyRowColumnValue event per primary-key condition. -/
def modifyUniq (events : List BTableDataChangeEvents) : Prop :=
  ∀ conditions, modifyCondCount events conditions ≤ 1

/-- The primary-key conditions the engine would use to address the row
displayed at a given current index, in a given session state. -/
def conditionsOf (s : TableData) (row_index : Nat) : Option (List BCondition) :=
  match s.table_inserted_data with
  | none => none
  | some t =>
    get_primary_key_conditions s.primary_key_column_names
      s.current_to_initial_row_indexes t row_index

/-- The four-row snapshot of the source's own test
(columns id INTEGER, name TEXT, primary key id). -/
def t4 : BTableInsertedData :=
  ⟨"t", ["id", "name"], [.INTEGER, .TEXT],
   [["1", "Alice"], ["2", "Bob"], ["3", "Charlie"], ["4", "Jacob"]]⟩

/-- Freshly opened session on the four-row snapshot. -/
def s4 : TableData := ⟨some t4, [], ["id"], identityMap 4⟩

/-- The session state the code produces from `s4` by `delete(1)`:
one DeleteRow event for the row with id 2, and the renumbered translator. -/
def s4del : TableData :=
  ⟨some t4, [.DeleteRow [⟨"id", .INTEGER, "2"⟩]], ["id"],
   [(0, 0), (1, 3), (2, 3)]⟩

/-- A one-row snapshot (row id 1, name Alice). -/
def t1r : BTableInsertedData :=
  ⟨"t", ["id", "name"], [.INTEGER, .TEXT], [["1", "Alice"]]⟩

/-- Freshly opened session on the one-row snapshot. -/
def s1r : TableData := ⟨some t1r, [], ["id"], identityMap 1⟩

/-- A two-row snapshot (rows id 1 and id 2). -/
def t2r : BTableInsertedData :=
  ⟨"t", ["id", "name"], [.INTEGER, .TEXT], [["1", "a"], ["2", "b"]]⟩

/-- Freshly opened session on the two-row snapshot. -/
def s2r : TableData := ⟨some t2r, [], ["id"], identityMap 2⟩

/-- The session state the code produces from `s2r` by `delete(0)` followed
by `insert(["9", "z"])`. -/
def s2di : TableData :=
  ⟨some t2r,
   [.DeleteRow [⟨"id", .INTEGER, "1"⟩],
    .InsertRow ⟨["id", "name"], ["9", "z"], [.INTEGER, .TEXT]⟩],
   ["id"], [(0, 1)]⟩

/-- The session state the code produces from `s1r` by
`modify(0, "name", "X")`: one staged ModifyRowColumnValue event. -/
def sMod : TableData :=
  ⟨some t1r,
   [.ModifyRowColumnValue ⟨[⟨"id", .INTEGER, "1"⟩], [("name", .TEXT, "X")]⟩],
   ["id"], identityMap 1⟩

/-- General info list holding the test table. -/
def infos1 : List BTableGeneral := [⟨"t", ["id", "name"], [.INTEGER, .TEXT]⟩]

/-- The session state the code produces from `s2r` by `delete(0)`,
`modify(0, "name", "X")`, `modify(0, "name", "b")`: the row displayed at
current index 0 is the snapshot row at initial index 1 (`["2", "b"]`),
and although its only pending column was set back to its own original
value "b", the pending change remains, because the cancellation test
compares against the snapshot row at the current index 0 (`["1", "a"]`). -/
def sShift : TableData :=
  ⟨some t2r,
   [.DeleteRow [⟨"id", .INTEGER, "1"⟩],
    .ModifyRowColumnValue ⟨[⟨"id", .INTEGER, "2"⟩], [("name", .TEXT, "b")]⟩],
   ["id"], [(0, 1)]⟩

/-- The session state the code produces from `s1r` by
`modify(0, "id", "1")` followed by `modify(0, "name", "Alice")` — both
values equal the row's original snapshot values. -/
def sRev : TableData :=
  ⟨some t1r,
   [.ModifyRowColumnValue ⟨[⟨"id", .INTEGER, "1"⟩],
     [("id", .INTEGER, "1"), ("name", .TEXT, "Alice")]⟩],
   ["id"], identityMap 1⟩

/-- The session state the code produces from `s1r` by
`modify(0, "name", "X")` followed by `delete(0)`: a ModifyRowColumnValue
and a DeleteRow event keyed by the same primary-key condition coexist. -/
def sMD : TableData :=
  ⟨some t1r,
   [.ModifyRowColumnValue ⟨[⟨"id", .INTEGER, "1"⟩], [("name", .TEXT, "X")]⟩,
    .DeleteRow [⟨"id", .INTEGER, "1"⟩]],
   ["id"], identityMap 1⟩

/-! Helper lemmas about the association-list HashMap model. -/

theorem assocGet_assocInsert {κ ν : Type} [DecidableEq κ]
    (m : List (κ × ν)) (k : κ) (v : ν) (j : κ) :
    assocGet (assocInsert m k v) j = if k = j then some v else assocGet m j := by
  induction m with
  | nil => simp [assocInsert, assocGet]
  | cons hd tl ih =>
    obtain ⟨k', v'⟩ := hd
    by_cases h1 : k' = k
    · subst h1
      by_cases h2 : k' = j <;> simp [assocInsert, assocGet, h2]
    · by_cases h2 : k' = j
      · subst h2
        have hkj : ¬ k = k' := fun h => h1 h.symm
        simp [assocInsert, assocGet, h1, hkj]
      · simp [assocInsert, assocGet, h1, h2, ih]

theorem identityMap_succ (n : Nat) :
    identityMap (n + 1) = assocInsert (identityMap n) n n := by
  simp [identityMap, List.range_succ]

theorem assocGet_identityMap (n k : Nat) :
    assocGet (identityMap n) k = if k < n then some k else none := by
  induction n with
  | zero => simp [identityMap, assocGet]
  | succ n ih =>
    rw [identityMap_succ, assocGet_assocInsert]
    by_cases h : n = k
    · subst h
      simp
    · have : k < n + 1 ↔ k < n := by omega
      simp [h, ih, this]

theorem assocRemove_length {κ ν : Type} [DecidableEq κ]
    (m : List (κ × ν)) (k : κ) (v : ν) (h : assocGet m k = some v) :
    (assocRemove m k).length + 1 = m.length := by
  induction m with
  | nil => simp [assocGet] at h
  | cons hd tl ih =>
    obtain ⟨k', v'⟩ := hd
    by_cases h1 : k' = k
    · simp [assocRemove, h1]
    · simp [assocGet, h1] at h
      simp [assocRemove, h1, ih h]

/-! Helper lemmas about `listPosition`. -/

theorem listPosition_eq_none {α : Type} (p : α → Bool) (l : List α)
    (h : listPosition p l = none) : l.filter p = [] := by
  induction l with
  | nil => rfl
  | cons x xs ih =>
    by_cases hx : p x
    · simp [listPosition, hx] at h
    · simp [listPosition, hx] at h
      cases hpos : listPosition p xs with
      | none => simp [List.filter, hx, ih hpos]
      | some i => simp [hpos] at h

theorem listPosition_eq_some {α : Type} (p : α → Bool) (l : List α) (i : Nat)
    (h : listPosition p l = some i) : ∃ x, l[i]? = some x ∧ p x = true := by
  induction l generalizing i with
  | nil => simp [listPosition] at h
  | cons x xs ih =>
    by_cases hx : p x
    · simp [listPosition, hx] at h
      subst h
      exact ⟨x, by simp, hx⟩
    · simp [listPosition, hx] at h
      cases hpos : listPosition p xs with
      | none => simp [hpos] at h
      | some i' =>
        simp [hpos] at h
        subst h
        obtain ⟨y, hy, hpy⟩ := ih i' hpos
        exact ⟨y, by simpa using hy, hpy⟩

/-! Helper lemmas about event counts. -/

theorem modifyCondCount_append (a b : List BTableDataChangeEvents)
    (c : List BCondition) :
    modifyCondCount (a ++ b) c = modifyCondCount a c + modifyCondCount b c := by
  simp [modifyCondCount, List.filter_append]

theorem modifyCondCount_deleteRow (conds : List BCondition) (c : List BCondition) :
    modifyCondCount [.DeleteRow conds] c = 0 := by
  simp [modifyCondCount, isModifyWith]

theorem modifyCondCount_insertRow (d : BRowInsertData) (c : List BCondition) :
    modifyCondCount [.InsertRow d] c = 0 := by
  simp [modifyCondCount, isModifyWith]

theorem deleteCount_append (a b : List BTableDataChangeEvents) :
    deleteCount (a ++ b) = deleteCount a + deleteCount b := by
  simp [deleteCount, List.filter_append]

theorem insertCount_append (a b : List BTableDataChangeEvents) :
    insertCount (a ++ b) = insertCount a + insertCount b := by
  simp [insertCount, List.filter_append]

theorem deleteCount_insertRow (d : BRowInsertData) :
    deleteCount [.InsertRow d] = 0 := by
  simp [deleteCount]

theorem modifyCondCount_cons (e : BTableDataChangeEvents)
    (es : List BTableDataChangeEvents) (c : List BCondition) :
    modifyCondCount (e :: es) c
      = (if isModifyWith c e then 1 else 0) + modifyCondCount es c := by
  simp only [modifyCondCount, List.filter]
  cases h : isModifyWith c e <;> simp [h, Nat.add_comm]

theorem modifyCondCount_eraseIdx_le (evs : List BTableDataChangeEvents)
    (i : Nat) (c : List BCondition) :
    modifyCondCount (evs.eraseIdx i) c ≤ modifyCondCount evs c := by
  have hsub : List.Sublist (evs.eraseIdx i) evs := List.eraseIdx_sublist evs i
  exact List.Sublist.length_le (hsub.filter _)

theorem modifyCondCount_pos_of_getElem (evs : List BTableDataChangeEvents)
    (i : Nat) (r : BRowColumnValue)
    (hget : evs[i]? = some (.ModifyRowColumnValue r)) :
    1 ≤ modifyCondCount evs r.conditions := by
  induction evs generalizing i with
  | nil => simp at hget
  | cons e es ih =>
    cases i with
    | zero =>
      simp at hget
      subst hget
      simp [modifyCondCount_cons, isModifyWith]
    | succ i =>
      simp at hget
      have := ih i hget
      rw [modifyCondCount_cons]
      omega

theorem modifyCondCount_eraseIdx_eq_zero (evs : List BTableDataChangeEvents)
    (i : Nat) (r : BRowColumnValue)
    (hget : evs[i]? = some (.ModifyRowColumnValue r))
    (huniq : modifyCondCount evs r.conditions ≤ 1) :
    modifyCondCount (evs.eraseIdx i) r.conditions = 0 := by
  induction evs generalizing i with
  | nil => simp at hget
  | cons e es ih =>
    cases i with
    | zero =>
      simp at hget
      subst hget
      rw [modifyCondCount_cons] at huniq
      simp [isModifyWith] at huniq
      simp only [List.eraseIdx]
      omega
    | succ i =>
      simp at hget
      have hpos := modifyCondCount_pos_of_getElem es i r hget
      rw [modifyCondCount_cons] at huniq
      have hce : isModifyWith r.conditions e = false := by
        cases hc : isModifyWith r.conditions e
        · rfl
        · rw [hc] at huniq
          simp at huniq
          omega
      have hes : modifyCondCount es r.conditions ≤ 1 := by
        rw [hce] at huniq
        omega
      simpa [List.eraseIdx, modifyCondCount_cons, hce] using ih i hget hes

theorem modifyCondCount_set (evs : List BTableDataChangeEvents) (i : Nat)
    (e e' : BTableDataChangeEvents) (hget : evs[i]? = some e)
    (hsame : ∀ c, isModifyWith c e' = isModifyWith c e) (c : List BCondition) :
    modifyCondCount (evs.set i e') c = modifyCondCount evs c := by
  induction evs generalizing i with
  | nil => simp at hget
  | cons x xs ih =>
    cases i with
    | zero =>
      simp at hget
      subst hget
      simp [List.set, modifyCondCount_cons, hsame c]
    | succ i =>
      simp at hget
      simp [List.set, modifyCondCount_cons, ih i hget]

/-! Helper lemmas about insert-event enumeration. -/

theorem insertEventIndexesFrom_append (n : Nat)
    (a b : List BTableDataChangeEvents) :
    insertEventIndexesFrom n (a ++ b)
      = insertEventIndexesFrom n a ++ insertEventIndexesFrom (n + a.length) b := by
  induction a generalizing n with
  | nil => simp [insertEventIndexesFrom]
  | cons e es ih =>
    cases e <;>
      simp [insertEventIndexesFrom, ih (n + 1), Nat.add_assoc, Nat.add_comm 1]

theorem length_insertEventIndexesFrom (n : Nat)
    (evs : List BTableDataChangeEvents) :
    (insertEventIndexesFrom n evs).length = insertCount evs := by
  induction evs generalizing n with
  | nil => simp [insertEventIndexesFrom, insertCount]
  | cons e es ih =>
    cases e <;> simp [insertEventIndexesFrom, insertCount, List.filter] at ih ⊢ <;>
      simp [ih]

theorem insertEventIndexesFrom_spec (evs : List BTableDataChangeEvents)
    (n k j : Nat) (h : (insertEventIndexesFrom n evs)[k]? = some j) :
    n ≤ j ∧ (∃ d, evs[j - n]? = some (.InsertRow d))
      ∧ insertCount (evs.take (j - n)) = k := by
  induction evs generalizing n k j with
  | nil => simp [insertEventIndexesFrom] at h
  | cons e es ih =>
    cases he : e with
    | InsertRow d =>
      subst he
      simp only [insertEventIndexesFrom] at h
      cases k with
      | zero =>
        simp at h
        subst h
        simp [insertCount]
      | succ k =>
        simp at h
        obtain ⟨hnj, ⟨d', hd'⟩, hcount⟩ := ih (n + 1) k j h
        have hj : n + 1 ≤ j := hnj
        refine ⟨by omega, ⟨d', ?_⟩, ?_⟩
        · have : j - n = (j - (n + 1)) + 1 := by omega
          rw [this]
          simpa using hd'
        · have : j - n = (j - (n + 1)) + 1 := by omega
          rw [this]
          simp [List.take, insertCount, List.filter]
          simpa [insertCount] using hcount
    | ModifyRowColumnValue r =>
      subst he
      simp only [insertEventIndexesFrom] at h
      obtain ⟨hnj, ⟨d', hd'⟩, hcount⟩ := ih (n + 1) k j h
      refine ⟨by omega, ⟨d', ?_⟩, ?_⟩
      · have : j - n = (j - (n + 1)) + 1 := by omega
        rw [this]
        simpa using hd'
      · have : j - n = (j - (n + 1)) + 1 := by omega
        rw [this]
        simpa [List.take, insertCount, List.filter] using hcount
    | DeleteRow conds =>
      subst he
      simp only [insertEventIndexesFrom] at h
      obtain ⟨hnj, ⟨d', hd'⟩, hcount⟩ := ih (n + 1) k j h
      refine ⟨by omega, ⟨d', ?_⟩, ?_⟩
      · have : j - n = (j - (n + 1)) + 1 := by omega
        rw [this]
        simpa using hd'
      · have : j - n = (j - (n + 1)) + 1 := by omega
        rw [this]
        simpa [List.take, insertCount, List.filter] using hcount

theorem eraseIdx_append_length {α : Type} (l : List α) (x : α) :
    (l ++ [x]).eraseIdx l.length = l := by
  induction l with
  | nil => simp [List.eraseIdx]
  | cons y ys ih => simp [List.eraseIdx, ih]

/-! Helper lemmas about insert addressing. -/

theorem find_insert_none (events : List BTableDataChangeEvents)
    (t : BTableInsertedData) (i : Nat)
    (hD : deleteCount events ≤ t.rows.length)
    (hi : i < t.rows.length - deleteCount events) :
    find_existing_row_insert_event events t i = some none := by
  unfold find_existing_row_insert_event
  have h1 : ¬ t.rows.length < deleteCount events := by omega
  simp only [h1, if_false, checkedSub, hi, if_true]

theorem find_insert_addresses (events : List BTableDataChangeEvents)
    (t : BTableInsertedData) (k j : Nat)
    (hD : deleteCount events ≤ t.rows.length)
    (hk : (insertEventIndexes events)[k]? = some j) :
    find_existing_row_insert_event events t
      (t.rows.length - deleteCount events + k) = some (some j) := by
  unfold find_existing_row_insert_event
  have h1 : ¬ t.rows.length < deleteCount events := by omega
  have h2 : checkedSub (t.rows.length - deleteCount events + k)
      (t.rows.length - deleteCount events) = some k := by
    unfold checkedSub
    rw [if_neg (by omega)]
    congr 1
    omega
  simp only [h1, if_false, h2]
  rw [hk]

/-- Claim C10: when no table has been opened (`table_inserted_data` is
`None`), every call to insert, modify, or delete panics (modelled as
`none`) rather than being a no-op or returning an error. -/
theorem c10_no_table_panics (s : TableData)
    (hs : s.table_inserted_data = none) :
    (∀ values, add_insert_row_event s values = none) ∧
    (∀ row_index column_name new_value,
      add_modify_row_column_value_event s row_index column_name new_value = none) ∧
    (∀ row_index, add_delete_row_event s row_index = none) := by
  refine ⟨fun values => ?_, fun i c v => ?_, fun i => ?_⟩ <;>
    simp [add_insert_row_event, add_modify_row_column_value_event,
      add_delete_row_event, hs]

/-- Witness for C10 at the initial session state. -/
theorem c10_no_table_panics_witness :
    add_insert_row_event ⟨none, [], [], []⟩ ["1", "x"] = none ∧
    add_modify_row_column_value_event ⟨none, [], [], []⟩ 0 "id" "1" = none ∧
    add_delete_row_event ⟨none, [], [], []⟩ 0 = none := by
  have h := c10_no_table_panics ⟨none, [], [], []⟩ rfl
  exact ⟨h.1 ["1", "x"], h.2.1 0 "id" "1", h.2.2 0⟩

/-- Claim C1, evaluated at a failing input: on the four-row table, after
`delete(1)` the displayed row count is 3, so current index 3 is out of
range; yet `modify(3, "name", "x")` panics (returns `none`, from the
`unwrap` of a missing translator entry) instead of being a no-op. -/
theorem c1_out_of_range_modify_panics :
    add_delete_row_event s4 1 = some s4del ∧
    displayedRowCount s4del ≤ 3 ∧
    add_modify_row_column_value_event s4del 3 "name" "x" = none := by
  refine ⟨by decide, by decide, by decide⟩

/-- Claim C2, evaluated at a failing input: on the four-row table with the
identity translator, `delete(1)` must leave the translator mapping current
index 1 to initial index 2 (the pre-delete image of current index 2), but
the renumbering loop maps it to 3. -/
theorem c2_translator_shift_wrong :
    add_delete_row_event s4 1 = some s4del ∧
    assocGet s4.current_to_initial_row_indexes 2 = some 2 ∧
    assocGet s4del.current_to_initial_row_indexes 1 = some 3 := by
  refine ⟨by decide, by decide, by decide⟩

/-- Claim C9: after a successful commit, and equally after opening a
table (both run `set_table_data`), the pending edit log is empty, the
snapshot holds exactly the freshly fetched rows, and the index translator
is exactly the identity mapping over `0..rows.length`. -/
theorem c9_refresh_resets (infos : List BTableGeneral) (pk : List String)
    (rows : List (List String)) (s : TableData) (t : BTableInsertedData)
    (info : BTableGeneral) (repo_failed : Bool)
    (hs : s.table_inserted_data = some t)
    (hfind : infos.find? (fun i => i.table_name = t.table_name) = some info) :
    (set_table_data infos pk rows s t.table_name).table_data_change_events = []
    ∧ (set_table_data infos pk rows s t.table_name).table_inserted_data
        = some ⟨t.table_name, info.column_names, info.data_types, rows⟩
    ∧ (∀ k, assocGet (set_table_data infos pk rows s
          t.table_name).current_to_initial_row_indexes k
        = if k < rows.length then some k else none)
    ∧ update_table_data infos pk rows repo_failed s
        = set_table_data infos pk rows s t.table_name := by
  simp [set_table_data, update_table_data, hs, hfind, assocGet_identityMap]

/-- Witness for C9: refreshing the one-row session against a single-row
fetch empties the log and installs the identity translator. -/
theorem c9_refresh_resets_witness :
    (set_table_data infos1 ["id"] [["7", "w"]] s1r "t").table_data_change_events
      = []
    ∧ (set_table_data infos1 ["id"] [["7", "w"]] s1r "t").table_inserted_data
        = some ⟨"t", ["id", "name"], [.INTEGER, .TEXT], [["7", "w"]]⟩
    ∧ (∀ k, assocGet (set_table_data infos1 ["id"] [["7", "w"]] s1r
          "t").current_to_initial_row_indexes k
        = if k < 1 then some k else none)
    ∧ update_table_data infos1 ["id"] [["7", "w"]] false s1r
        = set_table_data infos1 ["id"] [["7", "w"]] s1r "t" := by
  have h := c9_refresh_resets infos1 ["id"] [["7", "w"]] s1r t1r
    ⟨"t", ["id", "name"], [.INTEGER, .TEXT]⟩ false rfl (by decide)
  exact h

/-- Claim C5 counterexample: a commit attempt for which the Repository
reported failure still clears the pending edit log, instead of leaving it
exactly as captured at dispatch. -/
theorem c5_failed_commit_clears_log_cx :
    sMod.table_data_change_events ≠ [] ∧
    (update_table_data infos1 ["id"] [["7", "w"]] true
      sMod).table_data_change_events = [] := by
  refine ⟨by decide, by decide⟩

/-- Claim C5 as amended: a commit attempt on an open table whose name is
listed in the general info always refreshes the snapshot and clears the
pending edit log, whether or not the Repository reported an error — the
reported outcome is discarded, so a failed commit does not preserve the
staged edits. -/
theorem c5_commit_clears_log_even_on_failure (infos : List BTableGeneral)
    (pk : List String) (rows : List (List String)) (s : TableData)
    (t : BTableInsertedData) (info : BTableGeneral)
    (hs : s.table_inserted_data = some t)
    (hfind : infos.find? (fun i => i.table_name = t.table_name) = some info) :
    (update_table_data infos pk rows true s).table_data_change_events = []
    ∧ update_table_data infos pk rows true s
        = update_table_data infos pk rows false s := by
  simp [update_table_data, set_table_data, hs, hfind]

/-- Witness for C5: at the concrete one-event session. -/
theorem c5_commit_clears_log_even_on_failure_witness :
    (update_table_data infos1 ["id"] [["7", "w"]] true
      sMod).table_data_change_events = []
    ∧ update_table_data infos1 ["id"] [["7", "w"]] true sMod
        = update_table_data infos1 ["id"] [["7", "w"]] false sMod := by
  exact c5_commit_clears_log_even_on_failure infos1 ["id"] [["7", "w"]] sMod
    t1r ⟨"t", ["id", "name"], [.INTEGER, .TEXT]⟩ rfl (by decide)

theorem getElem?_append_singleton {α : Type} (l : List α) (x : α) (k : Nat)
    (h : k = l.length) : (l ++ [x])[k]? = some x := by
  subst h
  induction l with
  | nil => rfl
  | cons y ys ih => simp [ih]

/-- Claim C6: deleting the current index that addresses the insert staged
last removes that InsertRow event and nothing else — the whole session
state (log, translator, snapshot) returns exactly to what it was before
the insert, so no DeleteRow event is appended, the translator is
untouched, and the current indices of all other rows are unaffected. -/
theorem c6_insert_then_delete_cancels (s : TableData) (t : BTableInsertedData)
    (values : List String)
    (hs : s.table_inserted_data = some t)
    (hD : deleteCount s.table_data_change_events ≤ t.rows.length) :
    (add_insert_row_event s values).bind
      (fun s1 => add_delete_row_event s1
        (t.rows.length - deleteCount s.table_data_change_events
          + insertCount s.table_data_change_events)) = some s := by
  set ins : BTableDataChangeEvents :=
    .InsertRow ⟨t.column_names, values, t.data_types⟩ with hins
  have higet : (insertEventIndexes (s.table_data_change_events ++ [ins]))[
      insertCount s.table_data_change_events]?
      = some s.table_data_change_events.length := by
    rw [insertEventIndexes, insertEventIndexesFrom_append, hins]
    simp only [insertEventIndexesFrom, Nat.zero_add]
    exact getElem?_append_singleton _ _ _
      (length_insertEventIndexesFrom 0 s.table_data_change_events).symm
  have hD' : deleteCount (s.table_data_change_events ++ [ins]) ≤ t.rows.length := by
    rw [hins, deleteCount_append, deleteCount_insertRow]
    omega
  have hfind := find_insert_addresses (s.table_data_change_events ++ [ins]) t
    (insertCount s.table_data_change_events)
    s.table_data_change_events.length hD' higet
  rw [hins, deleteCount_append, deleteCount_insertRow, Nat.add_zero] at hfind
  rw [← hins] at hfind
  simp only [add_insert_row_event, hs, Option.some_bind]
  simp only [add_delete_row_event, hs, ← hins, hfind]
  rw [eraseIdx_append_length, ← hs]

/-- Witness for C6 at the freshly opened four-row session. -/
theorem c6_insert_then_delete_cancels_witness :
    (add_insert_row_event s4 ["9", "z"]).bind
      (fun s1 => add_delete_row_event s1
        (t4.rows.length - deleteCount s4.table_data_change_events
          + insertCount s4.table_data_change_events)) = some s4 :=
  c6_insert_then_delete_cancels s4 t4 ["9", "z"] rfl (by decide)

/-- A successful modify call changes only the pending edit log: the
snapshot, the primary-key column names, and the translator are untouched. -/
theorem add_modify_only_events (s : TableData) (i : Nat) (c v : String)
    (s' : TableData)
    (h : add_modify_row_column_value_event s i c v = some s') :
    s'.table_inserted_data = s.table_inserted_data
    ∧ s'.primary_key_column_names = s.primary_key_column_names
    ∧ s'.current_to_initial_row_indexes = s.current_to_initial_row_indexes := by
  unfold add_modify_row_column_value_event at h
  repeat' split at h
  all_goals
    first
      | exact Option.noConfusion h
      | (obtain ⟨evs, _hu, rfl⟩ := Option.map_eq_some'.mp h
         exact ⟨rfl, rfl, rfl⟩)
      | (injection h with h'
         subst h'
         exact ⟨rfl, rfl, rfl⟩)

theorem mem_zip_getElem {α β : Type} (l₁ : List α) (l₂ : List β) (p : α × β)
    (h : p ∈ l₁.zip l₂) :
    ∃ k : Nat, l₁[k]? = some p.1 ∧ l₂[k]? = some p.2 := by
  induction l₁ generalizing l₂ with
  | nil => simp [List.zip] at h
  | cons x xs ih =>
    cases l₂ with
    | nil => simp [List.zip] at h
    | cons y ys =>
      simp only [List.zip_cons_cons, List.mem_cons] at h
      rcases h with h | h
      · subst h
        exact ⟨0, by simp, by simp⟩
      · obtain ⟨k, h1, h2⟩ := ih ys h
        exact ⟨k + 1, by simpa using h1, by simpa using h2⟩

theorem getElem?_zip_fst {α β : Type} (l₁ : List α) (l₂ : List β) (k : Nat)
    (a : α) (b : β) (h : (l₁.zip l₂)[k]? = some (a, b)) : l₁[k]? = some a := by
  induction l₁ generalizing l₂ k with
  | nil => simp at h
  | cons x xs ih =>
    cases l₂ with
    | nil => simp at h
    | cons y ys =>
      cases k with
      | zero =>
        simp only [List.zip_cons_cons, List.getElem?_cons_zero,
          Option.some_inj, Prod.mk.injEq] at h
        simp [h.1]
      | succ k =>
        simp only [List.zip_cons_cons, List.getElem?_cons_succ] at h ⊢
        exact ih ys k h

/-- Claim C7: the primary-key condition the engine uses for a
snapshot-origin row is built from the row's original snapshot values at
its initial index, for exactly the primary-key columns; and a modify call
(in particular one that edits a primary-key column) never changes the
conditions computed for any row, because it touches neither the snapshot
nor the translator. -/
theorem c7_pk_conditions_from_original (s : TableData) (i : Nat)
    (c v : String) (s' : TableData)
    (h : add_modify_row_column_value_event s i c v = some s') :
    (∀ j, conditionsOf s' j = conditionsOf s j)
    ∧ (∀ j conds, conditionsOf s j = some conds →
        ∃ t init row, s.table_inserted_data = some t
          ∧ assocGet s.current_to_initial_row_indexes j = some init
          ∧ t.rows[init]? = some row
          ∧ ∀ cond ∈ conds,
              s.primary_key_column_names.contains cond.column_name = true
              ∧ ∃ k : Nat, t.column_names[k]? = some cond.column_name
                  ∧ row[k]? = some cond.value) := by
  obtain ⟨h1, h2, h3⟩ := add_modify_only_events s i c v s' h
  constructor
  · intro j
    simp only [conditionsOf, h1, h2, h3]
  · intro j conds hconds
    simp only [conditionsOf] at hconds
    cases hs : s.table_inserted_data with
    | none => rw [hs] at hconds; exact absurd hconds (by simp)
    | some t =>
      rw [hs] at hconds
      cases htr : assocGet s.current_to_initial_row_indexes j with
      | none => simp [get_primary_key_conditions, htr] at hconds
      | some init =>
        cases hrow : t.rows[init]? with
        | none => simp [get_primary_key_conditions, htr, hrow] at hconds
        | some row =>
          simp only [get_primary_key_conditions, htr, hrow,
            Option.some_inj] at hconds
          refine ⟨t, init, row, rfl, rfl, hrow, ?_⟩
          intro cond hcond
          rw [← hconds] at hcond
          obtain ⟨p, hp, hpc⟩ := List.mem_filterMap.mp hcond
          cases hpk : s.primary_key_column_names.contains p.1.1 with
          | false =>
            rw [hpk] at hpc
            simp at hpc
          | true =>
            rw [hpk] at hpc
            simp only [if_true, Option.some_inj] at hpc
            obtain ⟨k, hk1, hk2⟩ := mem_zip_getElem _ _ _ hp
            have hname := getElem?_zip_fst _ _ _ _ _ hk1
            subst hpc
            exact ⟨hpk, k, hname, hk2⟩

/-- Witness for C7: the modify call that stages name X on the one-row
session. -/
theorem c7_pk_conditions_from_original_witness :
    (∀ j, conditionsOf sMod j = conditionsOf s1r j)
    ∧ (∀ j conds, conditionsOf s1r j = some conds →
        ∃ t init row, s1r.table_inserted_data = some t
          ∧ assocGet s1r.current_to_initial_row_indexes j = some init
          ∧ t.rows[init]? = some row
          ∧ ∀ cond ∈ conds,
              s1r.primary_key_column_names.contains cond.column_name = true
              ∧ ∃ k : Nat, t.column_names[k]? = some cond.column_name
                  ∧ row[k]? = some cond.value) :=
  c7_pk_conditions_from_original s1r 0 "name" "X" sMod (by decide)

/-- Claim C8 counterexample: on the two-row table, after `delete(0)` and
one insert, the log holds one DeleteRow event, so the insert sits at
current index `rows.len - 1 + 0 = 1`, not at `rows.len + 0 = 2` as the
claim computes: a modify at index 2 addresses nothing and is a no-op,
while index 1 addresses the InsertRow event (log position 1). -/
theorem c8_insert_position_cx :
    (add_delete_row_event s2r 0).bind
      (fun s => add_insert_row_event s ["9", "z"]) = some s2di
    ∧ insertEventIndexes s2di.table_data_change_events = [1]
    ∧ find_existing_row_insert_event s2di.table_data_change_events t2r
        (t2r.rows.length + 0) = some none
    ∧ add_modify_row_column_value_event s2di (t2r.rows.length + 0) "name" "Q"
        = some s2di
    ∧ find_existing_row_insert_event s2di.table_data_change_events t2r
        (t2r.rows.length - deleteCount s2di.table_data_change_events + 0)
        = some (some 1) := by
  refine ⟨by decide, by decide, by decide, by decide, by decide⟩

/-- Claim C8 as amended: a pending InsertRow event's position among
current indices is `snapshot.rows.len() - (number of DeleteRow events) +
(number of prior InsertRow events)`; a modify or delete at that current
index addresses exactly that InsertRow event (the k-th insert, at log
position j, with exactly k InsertRow events before it). -/
theorem c8_insert_position_amended (events : List BTableDataChangeEvents)
    (t : BTableInsertedData) (k j : Nat)
    (hD : deleteCount events ≤ t.rows.length)
    (hk : (insertEventIndexes events)[k]? = some j) :
    find_existing_row_insert_event events t
      (t.rows.length - deleteCount events + k) = some (some j)
    ∧ (∃ d, events[j]? = some (.InsertRow d))
    ∧ insertCount (events.take j) = k := by
  have hspec := insertEventIndexesFrom_spec events 0 k j
    (by simpa [insertEventIndexes] using hk)
  obtain ⟨-, ⟨d, hd⟩, hc⟩ := hspec
  refine ⟨find_insert_addresses events t k j hD hk, ⟨d, by simpa using hd⟩, ?_⟩
  simpa using hc

/-- Witness for the amended C8 at the delete-then-insert session. -/
theorem c8_insert_position_amended_witness :
    find_existing_row_insert_event s2di.table_data_change_events t2r
      (t2r.rows.length - deleteCount s2di.table_data_change_events + 0)
      = some (some 1)
    ∧ (∃ d, s2di.table_data_change_events[1]? = some (.InsertRow d))
    ∧ insertCount (s2di.table_data_change_events.take 1) = 0 :=
  c8_insert_position_amended s2di.table_data_change_events t2r 0 1
    (by decide) (by decide)

/-- Claim C3 counterexample, two failing scenarios.  First: starting from
a clean log on the one-row table (row `["1", "Alice"]`), setting every
column to its own original snapshot value (`id` to "1", then `name` to
"Alice") leaves a ModifyRowColumnValue event keyed by the row's
primary-key condition in the log — the merge rules only cancel a column
that already has a pending entry, and record the original value
otherwise.  Second: on the two-row table after `delete(0)`, the row
`["2", "b"]` is displayed at current index 0; `modify(0, "name", "X")`
then `modify(0, "name", "b")` sets the row's only pending column back to
its own original value "b", yet the pending change survives, because
`update_modify_row_event` compares against the snapshot row at the
current index (`rows[0] = ["1", "a"]`), not the row's own initial index. -/
theorem c3_revert_all_columns_cx :
    ((add_modify_row_column_value_event s1r 0 "id" "1").bind
      (fun s => add_modify_row_column_value_event s 0 "name" "Alice")
      = some sRev
    ∧ t1r.rows[0]? = some ["1", "Alice"]
    ∧ modifyCondCount sRev.table_data_change_events
        [⟨"id", .INTEGER, "1"⟩] = 1)
    ∧ (((add_delete_row_event s2r 0).bind
        (fun s => add_modify_row_column_value_event s 0 "name" "X")).bind
        (fun s => add_modify_row_column_value_event s 0 "name" "b")
      = some sShift
    ∧ assocGet sShift.current_to_initial_row_indexes 0 = some 1
    ∧ t2r.rows[1]? = some ["2", "b"]
    ∧ modifyCondCount sShift.table_data_change_events
        [⟨"id", .INTEGER, "2"⟩] = 1) := by
  refine ⟨⟨by decide, by decide, by decide⟩,
    by decide, by decide, by decide, by decide⟩

theorem modifyUniq_of_length_le_one (evs : List BTableDataChangeEvents)
    (h : evs.length ≤ 1) : modifyUniq evs := by
  intro c
  calc modifyCondCount evs c ≤ evs.length := List.length_filter_le _ _
  _ ≤ 1 := h

/-- Claim C3 as amended: the cancellation test compares the incoming
value against the Snapshot row at the row's current index, not against
the addressed row's own initial-index values.  Precisely: when a modify
call reaches the existing ModifyRowColumnValue event of the displayed row
and targets a column holding a pending change, an incoming value equal to
the snapshot value at `rows[current_index]` for that column removes that
column's pending change; if it was the last pending change the whole
event is removed and no ModifyRowColumnValue event keyed by that row's
primary-key condition remains.  So the original claim holds only for a
row displayed at its initial index (where `rows[current_index]` is the
row's own snapshot row) and only for reverts of columns that hold pending
changes: a revert of a column with no pending entry records the value as
a pending change, and for a row shifted by a delete a revert to its own
original value does not cancel (both in the counterexample). -/
theorem c3_revert_pending_change_cancels (s : TableData)
    (t : BTableInsertedData) (row_index ei ci : Nat) (r : BRowColumnValue)
    (c : String) (dt dt0 : BDataType) (v : String) (row : List String)
    (orig : String)
    (hs : s.table_inserted_data = some t)
    (hD : deleteCount s.table_data_change_events ≤ t.rows.length)
    (hidx : row_index < t.rows.length - deleteCount s.table_data_change_events)
    (huniq : modifyUniq s.table_data_change_events)
    (hfind : find_existing_modify_row_event s.primary_key_column_names
        s.current_to_initial_row_indexes s.table_data_change_events t row_index
      = some (some ei))
    (hev : s.table_data_change_events[ei]?
      = some (.ModifyRowColumnValue r))
    (hc : assocGet r.column_values c = some (dt, v))
    (hci : listPosition (fun x => x == c) t.column_names = some ci)
    (hdt : t.data_types[ci]? = some dt0)
    (hrow : t.rows[row_index]? = some row)
    (horig : row[ci]? = some orig) :
    ∃ s', add_modify_row_column_value_event s row_index c orig = some s'
      ∧ ((assocRemove r.column_values c).length = 0 →
          s'.table_data_change_events = s.table_data_change_events.eraseIdx ei
          ∧ modifyCondCount s'.table_data_change_events r.conditions = 0)
      ∧ ((assocRemove r.column_values c).length ≠ 0 →
          s'.table_data_change_events = s.table_data_change_events.set ei
            (.ModifyRowColumnValue
              ⟨r.conditions, assocRemove r.column_values c⟩)) := by
  have hins := find_insert_none s.table_data_change_events t row_index hD hidx
  have hnle : ¬ t.rows.length ≤ row_index := by omega
  by_cases hlen : (assocRemove r.column_values c).length = 0
  · have hupd : update_modify_row_event s.table_data_change_events t row_index
        ei c orig dt0 = some (s.table_data_change_events.eraseIdx ei) := by
      unfold update_modify_row_event
      rw [hev]
      simp [hc, hci, hrow, horig, hlen]
    have heq : add_modify_row_column_value_event s row_index c orig
        = some
          { s with table_data_change_events :=
              s.table_data_change_events.eraseIdx ei } := by
      simp only [add_modify_row_column_value_event, hs, hins, hnle, if_false,
        hci, hdt, hfind, hupd]
      rfl
    refine ⟨_, heq, fun _ => ⟨rfl, ?_⟩, fun hne => absurd hlen hne⟩
    exact modifyCondCount_eraseIdx_eq_zero s.table_data_change_events ei r hev
      (huniq r.conditions)
  · set evs' := s.table_data_change_events.set ei
      (BTableDataChangeEvents.ModifyRowColumnValue
        ⟨r.conditions, assocRemove r.column_values c⟩) with hevs
    have hupd : update_modify_row_event s.table_data_change_events t row_index
        ei c orig dt0 = some evs' := by
      unfold update_modify_row_event
      rw [hev]
      simp [hc, hci, hrow, horig, hlen, hevs]
    have heq : add_modify_row_column_value_event s row_index c orig
        = some { s with table_data_change_events := evs' } := by
      simp only [add_modify_row_column_value_event, hs, hins, hnle, if_false,
        hci, hdt, hfind, hupd]
      rfl
    exact ⟨_, heq, fun h0 => absurd h0 hlen, fun _ => rfl⟩

/-- Witness for the amended C3: reverting the single pending column of the
staged event at a row displayed at its initial index removes the event,
leaving no ModifyRowColumnValue event for its primary-key condition. -/
theorem c3_revert_pending_change_cancels_witness :
    ∃ s', add_modify_row_column_value_event sMod 0 "name" "Alice" = some s'
      ∧ ((assocRemove [("name", BDataType.TEXT, "X")] "name").length = 0 →
          s'.table_data_change_events
            = sMod.table_data_change_events.eraseIdx 0
          ∧ modifyCondCount s'.table_data_change_events
              [⟨"id", .INTEGER, "1"⟩] = 0)
      ∧ ((assocRemove [("name", BDataType.TEXT, "X")] "name").length ≠ 0 →
          s'.table_data_change_events
            = sMod.table_data_change_events.set 0
              (.ModifyRowColumnValue
                ⟨[⟨"id", .INTEGER, "1"⟩],
                 assocRemove [("name", BDataType.TEXT, "X")] "name"⟩)) :=
  c3_revert_pending_change_cancels sMod t1r 0 0 1
    ⟨[⟨"id", .INTEGER, "1"⟩], [("name", .TEXT, "X")]⟩ "name" .TEXT .TEXT "X"
    ["1", "Alice"] "Alice" rfl (by decide) (by decide)
    (modifyUniq_of_length_le_one _ (by decide)) (by decide) (by decide)
    (by decide) (by decide) (by decide) (by decide) (by decide)

theorem update_modify_row_event_count_le (evs : List BTableDataChangeEvents)
    (t : BTableInsertedData) (ri ei : Nat) (c v : String) (dt : BDataType)
    (evs' : List BTableDataChangeEvents)
    (h : update_modify_row_event evs t ri ei c v dt = some evs')
    (cs : List BCondition) :
    modifyCondCount evs' cs ≤ modifyCondCount evs cs := by
  have hsame : ∀ (r : BRowColumnValue) (m : List (String × BDataType × String))
      (c' : List BCondition),
      isModifyWith c' (.ModifyRowColumnValue ⟨r.conditions, m⟩)
        = isModifyWith c' (.ModifyRowColumnValue r) := by
    intro r m c'
    simp [isModifyWith]
  unfold update_modify_row_event at h
  cases hg : evs[ei]? with
  | none =>
    simp only [hg] at h
    injection h with h'
    subst h'
    exact Nat.le_refl _
  | some e =>
    simp only [hg] at h
    cases e with
    | InsertRow d =>
      simp only at h
      injection h with h'
      subst h'
      exact Nat.le_refl _
    | DeleteRow conds =>
      simp only at h
      injection h with h'
      subst h'
      exact Nat.le_refl _
    | ModifyRowColumnValue r =>
      cases hcv : assocGet r.column_values c with
      | none =>
        simp only [hcv] at h
        injection h with h'
        subst h'
        exact Nat.le_of_eq (modifyCondCount_set evs ei _ _ hg (hsame r _) cs)
      | some p =>
        obtain ⟨dt', v'⟩ := p
        simp only [hcv] at h
        cases hlp : listPosition (fun x => x == c) t.column_names with
        | none =>
          simp only [hlp] at h
          exact Option.noConfusion h
        | some column_index =>
          simp only [hlp] at h
          cases hrw : t.rows[ri]? with
          | none =>
            simp only [hrw] at h
            exact Option.noConfusion h
          | some row =>
            simp only [hrw] at h
            cases hov : row[column_index]? with
            | none =>
              simp only [hov] at h
              exact Option.noConfusion h
            | some original =>
              simp only [hov] at h
              by_cases hveq : v = original
              · rw [if_pos hveq] at h
                by_cases hlen : (assocRemove r.column_values c).length = 0
                · rw [if_pos hlen] at h
                  injection h with h'
                  subst h'
                  exact modifyCondCount_eraseIdx_le evs ei cs
                · rw [if_neg hlen] at h
                  injection h with h'
                  subst h'
                  exact Nat.le_of_eq
                    (modifyCondCount_set evs ei _ _ hg (hsame r _) cs)
              · rw [if_neg hveq] at h
                injection h with h'
                subst h'
                exact Nat.le_of_eq
                  (modifyCondCount_set evs ei _ _ hg (hsame r _) cs)

theorem add_insert_modifyCondCount (s s' : TableData) (values : List String)
    (h : add_insert_row_event s values = some s') (cs : List BCondition) :
    modifyCondCount s'.table_data_change_events cs
      = modifyCondCount s.table_data_change_events cs := by
  unfold add_insert_row_event at h
  cases hs : s.table_inserted_data with
  | none => simp only [hs] at h; exact Option.noConfusion h
  | some t =>
    simp only [hs] at h
    injection h with h'
    subst h'
    simp [modifyCondCount_append, modifyCondCount_insertRow]

theorem add_delete_modifyCondCount_le (s s' : TableData) (i : Nat)
    (h : add_delete_row_event s i = some s') (cs : List BCondition) :
    modifyCondCount s'.table_data_change_events cs
      ≤ modifyCondCount s.table_data_change_events cs := by
  unfold add_delete_row_event at h
  cases hs : s.table_inserted_data with
  | none => simp only [hs] at h; exact Option.noConfusion h
  | some t =>
    simp only [hs] at h
    cases hf : find_existing_row_insert_event s.table_data_change_events t i with
    | none => simp only [hf] at h; exact Option.noConfusion h
    | some o =>
      simp only [hf] at h
      cases o with
      | some idx =>
        injection h with h'
        subst h'
        exact modifyCondCount_eraseIdx_le _ idx cs
      | none =>
        by_cases hlen : t.rows.length ≤ i
        · rw [if_pos hlen] at h
          injection h with h'
          subst h'
          exact Nat.le_refl _
        · rw [if_neg hlen] at h
          cases hc : get_primary_key_conditions s.primary_key_column_names
              s.current_to_initial_row_indexes t i with
          | none => simp only [hc] at h; exact Option.noConfusion h
          | some conds =>
            simp only [hc] at h
            cases hsl : shiftLoop s.current_to_initial_row_indexes
                (sortDesc ((assocKeys s.current_to_initial_row_indexes).filter
                  (fun k => decide (i < k)))) 0 with
            | none => simp only [hsl] at h; exact Option.noConfusion h
            | some m =>
              simp only [hsl] at h
              injection h with h'
              subst h'
              simp [modifyCondCount_append, modifyCondCount_deleteRow]

theorem add_modify_preserves_modifyUniq (s s' : TableData) (i : Nat)
    (c v : String)
    (h : add_modify_row_column_value_event s i c v = some s')
    (hu : modifyUniq s.table_data_change_events) :
    modifyUniq s'.table_data_change_events := by
  unfold add_modify_row_column_value_event at h
  cases hs : s.table_inserted_data with
  | none => simp only [hs] at h; exact Option.noConfusion h
  | some t =>
    simp only [hs] at h
    cases hf : find_existing_row_insert_event s.table_data_change_events t i with
    | none => simp only [hf] at h; exact Option.noConfusion h
    | some o =>
      simp only [hf] at h
      cases o with
      | some idx =>
        cases hg : s.table_data_change_events[idx]? with
        | none =>
          simp only [hg] at h
          injection h with h'
          subst h'
          exact hu
        | some e =>
          simp only [hg] at h
          injection h with h'
          subst h'
          intro cs
          have hsame : ∀ c', isModifyWith c'
              (update_existing_insert_row_event e c v t) = isModifyWith c' e := by
            intro c'
            cases e <;> simp [update_existing_insert_row_event, isModifyWith]
          rw [modifyCondCount_set s.table_data_change_events idx e
            (update_existing_insert_row_event e c v t) hg hsame cs]
          exact hu cs
      | none =>
        by_cases hlen : t.rows.length ≤ i
        · rw [if_pos hlen] at h
          injection h with h'
          subst h'
          exact hu
        · rw [if_neg hlen] at h
          cases hcol : listPosition (fun x => x == c) t.column_names with
          | none => simp only [hcol] at h; exact Option.noConfusion h
          | some ci =>
            simp only [hcol] at h
            cases hdt : t.data_types[ci]? with
            | none => simp only [hdt] at h; exact Option.noConfusion h
            | some dt0 =>
              simp only [hdt] at h
              cases hcp : get_primary_key_conditions s.primary_key_column_names
                  s.current_to_initial_row_indexes t i with
              | none =>
                simp only [find_existing_modify_row_event, hcp,
                  Option.map_none'] at h
                exact Option.noConfusion h
              | some conds =>
                cases hlp : listPosition (isModifyWith conds)
                    s.table_data_change_events with
                | some ei =>
                  simp only [find_existing_modify_row_event, hcp,
                    Option.map_some', hlp] at h
                  obtain ⟨evs', hupd, rfl⟩ := Option.map_eq_some'.mp h
                  intro cs
                  exact Nat.le_trans
                    (update_modify_row_event_count_le
                      s.table_data_change_events t i ei c v dt0 evs' hupd cs)
                    (hu cs)
                | none =>
                  simp only [find_existing_modify_row_event, hcp,
                    Option.map_some', hlp] at h
                  injection h with h'
                  subst h'
                  have h0 : modifyCondCount s.table_data_change_events conds = 0 := by
                    have := listPosition_eq_none (isModifyWith conds)
                      s.table_data_change_events hlp
                    simp [modifyCondCount, this]
                  intro cs
                  simp only [modifyCondCount_append]
                  by_cases hcs : conds = cs
                  · subst hcs
                    rw [h0]
                    simp [modifyCondCount, isModifyWith]
                  · have hz : modifyCondCount
                        [BTableDataChangeEvents.ModifyRowColumnValue
                          ⟨conds, [(c, dt0, v)]⟩] cs = 0 := by
                      simp [modifyCondCount, isModifyWith, hcs]
                    rw [hz]
                    have := hu cs
                    omega

/-- Claim C4 as amended: after any sequence of insert, modify, and delete
calls from a state whose log has at most one ModifyRowColumnValue event
per primary-key condition (in particular from a freshly opened table,
whose log is empty), the log still has at most one ModifyRowColumnValue
event per primary-key condition.  The original claim's stronger form is
false: a ModifyRowColumnValue and a DeleteRow event keyed by the same
condition can coexist (see the counterexample), and DeleteRow events can
repeat. -/
theorem c4_at_most_one_modify_per_condition (ops : List Op) (s s' : TableData)
    (hu : modifyUniq s.table_data_change_events)
    (h : runOps ops s = some s') :
    modifyUniq s'.table_data_change_events := by
  induction ops generalizing s with
  | nil =>
    simp only [runOps] at h
    injection h with h'
    subst h'
    exact hu
  | cons op ops ih =>
    simp only [runOps] at h
    cases hop : applyOp s op with
    | none => rw [hop] at h; exact Option.noConfusion h
    | some s1 =>
      rw [hop] at h
      have hu1 : modifyUniq s1.table_data_change_events := by
        cases op with
        | insert values =>
          intro cs
          rw [add_insert_modifyCondCount s s1 values hop cs]
          exact hu cs
        | modify i c v => exact add_modify_preserves_modifyUniq s s1 i c v hop hu
        | delete i =>
          intro cs
          exact Nat.le_trans (add_delete_modifyCondCount_le s s1 i hop cs) (hu cs)
      exact ih s1 hu1 h

/-- Claim C4 counterexample: modifying a row and then deleting it leaves
both a ModifyRowColumnValue event and a DeleteRow event keyed by the same
primary-key condition in the log, so the log does not hold at most one
pending effect per logical row. -/
theorem c4_modify_then_delete_same_key_cx :
    (add_modify_row_column_value_event s1r 0 "name" "X").bind
      (fun s => add_delete_row_event s 0) = some sMD
    ∧ sMD.table_data_change_events[0]?
        = some (.ModifyRowColumnValue
            ⟨[⟨"id", .INTEGER, "1"⟩], [("name", .TEXT, "X")]⟩)
    ∧ sMD.table_data_change_events[1]?
        = some (.DeleteRow [⟨"id", .INTEGER, "1"⟩]) := by
  refine ⟨by decide, by decide, by decide⟩

/-- Witness for the amended C4 at the modify-then-delete run. -/
theorem c4_at_most_one_modify_per_condition_witness :
    modifyUniq sMD.table_data_change_events :=
  c4_at_most_one_modify_per_condition [.modify 0 "name" "X", .delete 0]
    s1r sMD (modifyUniq_of_length_le_one _ (by decide)) (by decide)

end Crm
